import Mathlib

/-!
Verification of the job pipeline and duration-correcting transcode algorithm of
`topaz_video_gui_pro.py`.

The Python source is shallowly embedded: pure helpers become Lean functions on
`ℚ` (Python floats are modelled by exact rationals), `ℤ`/`ℕ` (Python ints) and
`List` (Python lists); the two `while` loops of the atempo-chain decomposition
become well-founded recursive functions; fallible code (`try`/`except`) returns
`Except`.  Definitions follow the source function they embed, with the source
line numbers noted in the doc comments.
-/

namespace Topaz

/-- Rounding a rational to 4 decimal places, modelling what Python
`f"{x:.4f}"` does to the numeric value of the final atempo stage
(round to nearest at the fourth decimal). -/
def round4 (x : ℚ) : ℚ := ((round (x * 10000) : ℤ) : ℚ) / 10000

/-- Rounding to 3 decimal places, modelling Python `round(x, 3)`
(source line 153, `normalize_fps` fallback). -/
def round3 (x : ℚ) : ℚ := ((round (x * 1000) : ℤ) : ℚ) / 1000

/-- Halving a rational strictly above `2` strictly decreases its natural
ceiling; this is the termination measure of both atempo `while` loops. -/
theorem ceil_half_lt (b : ℚ) (hb : 2 < b) : ⌈b / 2⌉₊ < ⌈b⌉₊ := by
  have h2 : (2 : ℕ) < ⌈b⌉₊ := by
    rw [Nat.lt_ceil]; exact_mod_cast hb
  have hle : ⌈b / 2⌉₊ ≤ ⌈b⌉₊ - 1 := by
    rw [Nat.ceil_le]
    have hcast : ((⌈b⌉₊ - 1 : ℕ) : ℚ) = (⌈b⌉₊ : ℚ) - 1 := by
      rw [Nat.cast_sub (by omega : (1 : ℕ) ≤ ⌈b⌉₊), Nat.cast_one]
    rw [hcast]
    have hb' : b ≤ (⌈b⌉₊ : ℚ) := Nat.le_ceil b
    linarith
  omega

/-- First atempo loop (source lines 331-333):
`while audio_speed_factor > 2.0: atempo_filters.append("atempo=2.0");
audio_speed_factor /= 2.0`.
Returns the list of emitted stage factors and the remaining factor (the loop
emits the stage strings; we record their numeric factor values).  Positivity
of the running factor is carried so the second loop can consume it. -/
def atempoDown (a : ℚ) (ha : 0 < a) : List ℚ × {q : ℚ // 0 < q} :=
  if h : 2 < a then
    let r := atempoDown (a / 2) (by positivity)
    ((2 : ℚ) :: r.1, r.2)
  else
    ([], ⟨a, ha⟩)
termination_by ⌈a⌉₊
decreasing_by
  exact ceil_half_lt a h

/-- Second atempo loop (source lines 334-336):
`while audio_speed_factor < 0.5: atempo_filters.append("atempo=0.5");
audio_speed_factor /= 0.5`.
The source loop diverges for factors `≤ 0`, which is unreachable (the factor
is a ratio of positive durations); the embedding therefore carries the
positivity hypothesis under which the loop terminates. -/
def atempoUp (a : ℚ) (ha : 0 < a) : List ℚ × ℚ :=
  if h : a < 1 / 2 then
    let r := atempoUp (a / (1 / 2)) (by positivity)
    ((1 / 2 : ℚ) :: r.1, r.2)
  else
    ([], a)
termination_by ⌈a⁻¹⌉₊
decreasing_by
  have hx : (a / (1 / 2))⁻¹ = a⁻¹ / 2 := by
    rw [div_div_eq_mul_div, div_eq_mul_inv, mul_inv]
    ring
  rw [hx]
  apply ceil_half_lt
  have h2 : ((1 : ℚ) / 2)⁻¹ < a⁻¹ := inv_strictAnti₀ ha h
  norm_num at h2
  exact h2

/-- Atempo-chain decomposition (source lines 330-338): both loops followed by
`if audio_speed_factor != 1.0: atempo_filters.append(f"atempo={...:.4f}")`.
The emitted stage factors are the numeric values carried by the emitted
`atempo=` filter strings; the final leftover stage is emitted rounded to
4 decimal places. -/
def atempoChain (a : ℚ) (ha : 0 < a) : List ℚ :=
  let d := atempoDown a ha
  let u := atempoUp d.2.1 d.2.2
  let filters := d.1 ++ u.1
  if u.2 ≠ 1 then filters ++ [round4 u.2] else filters

/-- Total wrapper of `atempoChain` used in the command builder.  The source
loop does not terminate on a factor `≤ 0`; that region is unreachable in the
program (the factor is `original_duration / desired_duration` with both
positive), so the wrapper returns the empty chain there. -/
def atempoChainQ (a : ℚ) : List ℚ :=
  if h : 0 < a then atempoChain a h else []

/-- Left-pads a digit string with zeros up to width `w`. -/
def padZeros (w : ℕ) (s : String) : String :=
  String.join (List.replicate (w - s.length) "0") ++ s

/-- Python fixed-point formatting `f"{x:.2f}"` on a rational. -/
def fmt2 (x : ℚ) : String :=
  let n := round (x * 100)
  let m := n.natAbs
  (if n < 0 then "-" else "") ++ toString (m / 100) ++ "." ++ padZeros 2 (toString (m % 100))

/-- Python fixed-point formatting `f"{x:.4f}"` on a rational. -/
def fmt4 (x : ℚ) : String :=
  let n := round (x * 10000)
  let m := n.natAbs
  (if n < 0 then "-" else "") ++ toString (m / 10000) ++ "." ++ padZeros 4 (toString (m % 10000))

/-- `pick_model_and_sharpen` (source lines 98-137) up to and including the
final clamp of the sharpen amount; the model id and the clamped amount.
The source's named booleans are inlined with their parenthesisation kept:
`is_low_res or low_bitrate` is `(width < 1280 ∨ height < 720) ∨ bm < 6`,
`is_uhd and high_bitrate` is `(width ≥ 3200 ∨ height ≥ 1800) ∧ bm ≥ 12`,
`is_fhd and mid_bitrate` is `(width ≥ 1920 ∧ height ≥ 1080) ∧ (6 ≤ bm ∧ bm < 12)`,
and `not high_bitrate` is `¬ bm ≥ 12`.  The source initialises
`model, amount := ("prob-4", 0.60)` but every branch of the rule table
overwrites both, so the defaults are dead. -/
def pick_model_amount (width height : ℤ) (fps bitrate_mbps : ℚ) : String × ℚ :=
  let bm : ℚ := if bitrate_mbps ≤ 0 then 1.0 else bitrate_mbps
  let ma : String × ℚ :=
    if (width < 1280 ∨ height < 720) ∨ bm < 6 then ("ahq-12", 0.70)
    else if (width ≥ 3200 ∨ height ≥ 1800) ∧ bm ≥ 12 then ("prob-4", 0.55)
    else if (width ≥ 1920 ∧ height ≥ 1080) ∧ (6 ≤ bm ∧ bm < 12) then
      if fps ≤ 30 then ("iris-3", 0.55) else ("prob-4", 0.60)
    else ("prob-4", if ¬ bm ≥ 12 then 0.65 else 0.58)
  (ma.1, max 0.45 (min ma.2 0.75))

/-- `pick_model_and_sharpen` (source lines 98-139): model id and the unsharp
filter expression with the clamped amount rendered at two decimals. -/
def pick_model_and_sharpen (width height : ℤ) (fps bitrate_mbps : ℚ) : String × String :=
  let ma := pick_model_amount width height fps bitrate_mbps
  (ma.1, "unsharp=luma_msize_x=5:luma_amount=" ++ fmt2 ma.2)

/-- The model-selection rule table as the specification words it (§4.2),
used as the refinement target for `pick_model_amount`: clamp a non-positive
bitrate to 1.0 first, then four rules in order with the first match winning,
then clamp the amount to `[0.45, 0.75]`. -/
def pickModelSpec (width height : ℤ) (fps bitrate_mbps : ℚ) : String × ℚ :=
  let br : ℚ := if bitrate_mbps ≤ 0 then 1.0 else bitrate_mbps
  let ma : String × ℚ :=
    if width < 1280 ∨ height < 720 ∨ br < 6 then ("ahq-12", 0.70)
    else if (width ≥ 3200 ∨ height ≥ 1800) ∧ br ≥ 12 then ("prob-4", 0.55)
    else if width ≥ 1920 ∧ height ≥ 1080 ∧ 6 ≤ br ∧ br < 12 then
      if fps ≤ 30 then ("iris-3", 0.55) else ("prob-4", 0.60)
    else if br < 12 then ("prob-4", 0.65) else ("prob-4", 0.58)
  (ma.1, max 0.45 (min ma.2 0.75))

/-- `normalize_fps` (source lines 141-153). -/
def normalize_fps (fps : ℚ) : ℚ :=
  if 23.5 ≤ fps ∧ fps < 24.5 then 23.976
  else if 24.5 ≤ fps ∧ fps < 25.5 then 25.0
  else if 29.5 ≤ fps ∧ fps < 30.5 then 29.97
  else if 49.5 ≤ fps ∧ fps < 50.5 then 50.0
  else if 59.5 ≤ fps ∧ fps < 60.5 then 59.94
  else round3 fps

/-! ### Status polling (source lines 1536-1631) -/

/-- One status response from the remote service.  `state`/`status` are the two
alternative wire fields (absent or non-string modelled as `none`); `progress`
is `none` when missing or non-numeric; `download` holds the download
descriptor's url when a truthy descriptor is present. -/
structure StatusResp where
  state : Option String
  status : Option String
  progress : Option ℚ
  download : Option String

/-- Python `a or b` on an optional string: the first truthy (present and
non-empty) value, else `b`. -/
def orElseStr (a : Option String) (b : String) : String :=
  match a with
  | some s => if s = "" then b else s
  | none => b

/-- Source line 1540: `state = status.get('state') or status.get('status') or 'waiting'`. -/
def stateField (r : StatusResp) : String :=
  orElseStr r.state (orElseStr r.status "waiting")

/-- Source line 1541: `state.lower() if isinstance(state, str) else 'waiting'`;
in this model `stateField` is always a string, so this is the per-character
case-fold (spelled through the character list so it evaluates). -/
def stateLower (r : StatusResp) : String :=
  String.mk ((stateField r).data.map Char.toLower)

/-- Source lines 1543-1548: progress normalisation.  A value `> 1` is taken as
a percentage, a value `≤ 1` as a fraction scaled by 100; missing or
non-numeric progress is 0; the result is clamped to `[0, 100]`. -/
def progressVal (r : StatusResp) : ℚ :=
  match r.progress with
  | some p => max 0 (min (if p > 1 then p else p * 100) 100)
  | none => 0

/-- Outcome of one poll-loop iteration: wait longer for finalisation
(progress full but state not complete, lines 1552-1555), resolve success
(lines 1557-1628), resolve failure (lines 1629-1630), or plain wait
(line 1631). -/
inductive PollOutcome where
  | waitLong
  | success
  | failure
  | wait
deriving DecidableEq

/-- The branch structure of one poll iteration (source lines 1552-1631), on
the already-normalised state string and progress value. -/
def pollStep (state_lower : String) (progress_val : ℚ) (hasDownload : Bool) : PollOutcome :=
  if progress_val ≥ 100 ∧ state_lower ≠ "complete" then PollOutcome.waitLong
  else if state_lower = "complete" ∨ hasDownload then PollOutcome.success
  else if state_lower = "failed" ∨ state_lower = "cancelled" then PollOutcome.failure
  else PollOutcome.wait

/-- One poll iteration on a raw status response. -/
def pollIteration (r : StatusResp) : PollOutcome :=
  pollStep (stateLower r) (progressVal r) r.download.isSome

/-! ### Credential pool (source lines 1403-1432 and 1607-1613) -/

/-- Success rotation (source lines 1608-1610): `if api_key in self.api_keys:
self.api_keys.remove(api_key); self.api_keys.append(api_key)`.  Python
`list.remove` deletes the first occurrence, as does `List.erase`. -/
def rotateKey {K : Type} [DecidableEq K] (pool : List K) (k : K) : List K :=
  if k ∈ pool then pool.erase k ++ [k] else pool

/-- Insufficient-credit eviction, in-memory part (source line 1426):
`if key in self.api_keys: self.api_keys.remove(key)`. -/
def evictKey {K : Type} [DecidableEq K] (pool : List K) (k : K) : List K :=
  if k ∈ pool then pool.erase k else pool

/-- `_remove_key_from_file` rewrite loop (source lines 1408-1411): keep each
line of the backing file unless the key occurs in it as a substring (Python
`key_to_remove in line`, i.e. the key's characters are an infix of the
line's).  Lines are modelled as character lists. -/
def removeKeyLines {α : Type} [DecidableEq α] (key : List α) : List (List α) → List (List α)
  | [] => []
  | line :: rest =>
    if key <:+: line then removeKeyLines key rest
    else line :: removeKeyLines key rest

/-! ### Duration-correcting transcode (source lines 286-371) -/

/-- Source line 321: `video_speed_factor = temp_duration / desired_duration`. -/
def video_speed_factor (temp_duration desired_duration : ℚ) : ℚ :=
  temp_duration / desired_duration

/-- Source line 322: `video_pts_factor = 1.0 / video_speed_factor`. -/
def video_pts_factor (temp_duration desired_duration : ℚ) : ℚ :=
  1.0 / video_speed_factor temp_duration desired_duration

/-- Python division, which raises `ZeroDivisionError` on a zero divisor. -/
def pydiv (a b : ℚ) : Except Unit ℚ :=
  if b = 0 then Except.error () else Except.ok (a / b)

/-- Source lines 313-314: `compose_video_filter`. -/
def compose_video_filter (sharp_filter : Option String) (base : String) : String :=
  match sharp_filter with
  | some s => base ++ "," ++ s
  | none => base

/-- Rendering of one emitted atempo stage.  The loops emit the literal strings
`atempo=2.0` and `atempo=0.5` (source lines 332, 335); the final leftover is
emitted at 4 decimals (line 338).  Our chain stores the numeric factors, so
the two loop stages are rendered back to their literals. -/
def atempoStageStr (q : ℚ) : String :=
  if q = 2 then "atempo=2.0"
  else if q = 1 / 2 then "atempo=0.5"
  else "atempo=" ++ fmt4 q

/-- Source line 340: `",".join(atempo_filters) if atempo_filters else "anull"`. -/
def atempoFilterStr (chain : List ℚ) : String :=
  if chain.isEmpty then "anull" else String.intercalate "," (chain.map atempoStageStr)

/-- The invalid-duration fallback (source lines 346-358): plain remap, video
with the sharpen filter when present, audio stream-copied when usable audio
exists, otherwise muted. -/
def invalidDurationArgs (video_has_audio : Bool) (sharp_filter : Option String) : List String :=
  if video_has_audio then
    match sharp_filter with
    | some s => ["-filter:v", s, "-map", "0:v:0", "-map", "1:a:0", "-c:a", "copy"]
    | none => ["-map", "0:v:0", "-map", "1:a:0", "-c:a", "copy"]
  else
    match sharp_filter with
    | some s => ["-filter:v", s, "-map", "0:v:0", "-an"]
    | none => ["-map", "0:v:0", "-an"]

/-- The `except` fallback (source lines 360-371), transcribed separately from
`invalidDurationArgs` because the source spells the block out twice. -/
def exceptFallbackArgs (video_has_audio : Bool) (sharp_filter : Option String) : List String :=
  if video_has_audio then
    match sharp_filter with
    | some s => ["-filter:v", s, "-map", "0:v:0", "-map", "1:a:0", "-c:a", "copy"]
    | none => ["-map", "0:v:0", "-map", "1:a:0", "-c:a", "copy"]
  else
    match sharp_filter with
    | some s => ["-filter:v", s, "-map", "0:v:0", "-an"]
    | none => ["-map", "0:v:0", "-an"]

/-- The `try` block of `reencode_video_adobe_optimized` (source lines 316-358)
that computes the speed factors and the filter/mapping arguments.
`temp_dur` is the probed duration of the downloaded file
(`get_video_metadata(input_path)[4]`), `none` when the probe raised. -/
def tryComputeArgs (temp_dur : Option ℚ) (original_duration desired_duration : ℚ)
    (video_has_audio : Bool) (sharp_filter : Option String) : Except Unit (List String) :=
  match temp_dur with
  | none => Except.error ()
  | some temp_duration =>
    if 0 < temp_duration ∧ 0 < original_duration then
      match pydiv temp_duration desired_duration with
      | Except.error e => Except.error e
      | Except.ok vsf =>
        match pydiv 1 vsf with
        | Except.error e => Except.error e
        | Except.ok vpf =>
          if video_has_audio then
            match pydiv original_duration desired_duration with
            | Except.error e => Except.error e
            | Except.ok asf =>
              let chain := atempoChainQ asf
              let vf := compose_video_filter sharp_filter ("setpts=" ++ fmt4 vpf ++ "*PTS")
              Except.ok ["-filter_complex",
                "[0:v]" ++ vf ++ "[v];[1:a]" ++ atempoFilterStr chain ++ "[a]",
                "-map", "[v]", "-map", "[a]"]
          else
            Except.ok ["-filter:v",
              compose_video_filter sharp_filter ("setpts=" ++ fmt4 vpf ++ "*PTS"), "-an"]
    else
      Except.ok (invalidDurationArgs video_has_audio sharp_filter)

/-- The filter/mapping arguments the transcoder ends up with: the `try` block
result, or the `except` fallback when the block raised (source lines 316-371).
Totality of this function is the embedding of "no exception escapes". -/
def reencodeFilterArgs (temp_dur : Option ℚ) (original_duration desired_duration : ℚ)
    (video_has_audio : Bool) (sharp_filter : Option String) : List String :=
  match tryComputeArgs temp_dur original_duration desired_duration video_has_audio sharp_filter with
  | Except.ok args => args
  | Except.error _ => exceptFallbackArgs video_has_audio sharp_filter

/-! ### Chunked upload (source lines 234-256) -/

/-- One uploaded part: its 1-based part number and the bytes sent. -/
structure PartUpload where
  partNum : ℕ
  data : List ℕ
deriving DecidableEq

/-- `upload_video_parts` (source lines 234-256).  `part_size` is
`(total_size + part_count - 1) // part_count`; part `idx` seeks to
`idx * part_size` and reads `min((idx+1)*part_size, total_size) - start`
bytes.  When that count is zero or negative (seek at or past EOF) the read
yields no bytes, which truncated subtraction models. -/
def upload_video_parts (upload_urls : List String) (file : List ℕ) : List PartUpload :=
  let total_size := file.length
  let part_count := upload_urls.length
  let part_size := (total_size + part_count - 1) / part_count
  upload_urls.enum.map fun iu =>
    let start := iu.1 * part_size
    let e := min ((iu.1 + 1) * part_size) total_size
    ⟨iu.1 + 1, (file.drop start).take (e - start)⟩

/-! ### Structural lemmas about the atempo chain -/

theorem round_mono_q {x y : ℚ} (h : x ≤ y) : round x ≤ round y := by
  rw [round_eq, round_eq]
  exact Int.floor_mono (by linarith)

theorem abs_round4_sub (x : ℚ) : |round4 x - x| ≤ 1 / 20000 := by
  have h : |x * 10000 - (round (x * 10000) : ℚ)| ≤ 1 / 2 := abs_sub_round (x * 10000)
  have hx : round4 x - x = (((round (x * 10000) : ℤ) : ℚ) - x * 10000) / 10000 := by
    unfold round4; ring
  rw [hx, abs_div, abs_sub_comm, show |(10000 : ℚ)| = 10000 by norm_num]
  linarith

theorem round4_mem (x : ℚ) (h1 : 1 / 2 ≤ x) (h2 : x ≤ 2) :
    1 / 2 ≤ round4 x ∧ round4 x ≤ 2 := by
  have hlo : (5000 : ℤ) ≤ round (x * 10000) := by
    have h := round_mono_q (show ((5000 : ℤ) : ℚ) ≤ x * 10000 by push_cast; linarith)
    rwa [round_intCast] at h
  have hhi : round (x * 10000) ≤ (20000 : ℤ) := by
    have h := round_mono_q (show x * 10000 ≤ ((20000 : ℤ) : ℚ) by push_cast; linarith)
    rwa [round_intCast] at h
  unfold round4
  constructor
  · rw [le_div_iff₀ (by norm_num : (0 : ℚ) < 10000)]
    have : (5000 : ℚ) ≤ ((round (x * 10000) : ℤ) : ℚ) := by exact_mod_cast hlo
    linarith
  · rw [div_le_iff₀ (by norm_num : (0 : ℚ) < 10000)]
    have : ((round (x * 10000) : ℤ) : ℚ) ≤ (20000 : ℚ) := by exact_mod_cast hhi
    linarith

theorem atempoDown_spec (a : ℚ) (ha : 0 < a) :
    ∃ m : ℕ, (atempoDown a ha).1 = List.replicate m 2 ∧
      a = 2 ^ m * (atempoDown a ha).2.1 ∧ (atempoDown a ha).2.1 ≤ 2 := by
  induction a, ha using atempoDown.induct with
  | case1 a ha h ih =>
    obtain ⟨m, h1, h2, h3⟩ := ih
    rw [atempoDown.eq_def, dif_pos h]
    exact ⟨m + 1, by simpa [List.replicate_succ] using h1,
      by rw [pow_succ]; nlinarith [h2], h3⟩
  | case2 a ha h =>
    rw [atempoDown.eq_def, dif_neg h]
    exact ⟨0, rfl, by norm_num, by linarith [not_lt.mp h]⟩

theorem atempoUp_spec (a : ℚ) (ha : 0 < a) :
    ∃ k : ℕ, (atempoUp a ha).1 = List.replicate k (1 / 2) ∧
      a = (1 / 2) ^ k * (atempoUp a ha).2 ∧ 1 / 2 ≤ (atempoUp a ha).2 ∧
      ((atempoUp a ha).2 = a ∨ (atempoUp a ha).2 < 1) := by
  induction a, ha using atempoUp.induct with
  | case1 a ha h ih =>
    obtain ⟨k, h1, h2, h3, h4⟩ := ih
    have hdiv : a / (1 / 2) = 2 * a := by ring
    rw [atempoUp.eq_def]
    simp only [dif_pos h]
    refine ⟨k + 1, by simpa [List.replicate_succ] using h1, ?_, h3, ?_⟩
    · rw [pow_succ]
      linear_combination h2 / 2
    · right
      rcases h4 with h4 | h4
      · rw [h4, hdiv]
        linarith
      · exact h4
  | case2 a ha h =>
    rw [atempoUp.eq_def, dif_neg h]
    exact ⟨0, rfl, by norm_num, by linarith [not_lt.mp h], Or.inl rfl⟩

theorem atempoChain_spec (a : ℚ) (ha : 0 < a) :
    ∃ (m k : ℕ) (r : ℚ),
      atempoChain a ha =
        (List.replicate m 2 ++ List.replicate k (1 / 2)) ++
          (if r ≠ 1 then [round4 r] else []) ∧
      a = 2 ^ m * (1 / 2) ^ k * r ∧ 1 / 2 ≤ r ∧ r ≤ 2 := by
  obtain ⟨m, hd1, hd2, hd3⟩ := atempoDown_spec a ha
  obtain ⟨k, hu1, hu2, hu3, hu4⟩ := atempoUp_spec (atempoDown a ha).2.1 (atempoDown a ha).2.2
  refine ⟨m, k, (atempoUp (atempoDown a ha).2.1 (atempoDown a ha).2.2).2, ?_, ?_, hu3, ?_⟩
  · unfold atempoChain
    rcases eq_or_ne (atempoUp (atempoDown a ha).2.1 (atempoDown a ha).2.2).2 1 with he | he
    · simp [he, hd1, hu1]
    · simp [he, hd1, hu1]
  · linear_combination hd2 + 2 ^ m * hu2
  · rcases hu4 with h | h
    · rw [h]; exact hd3
    · linarith

/-- C1 (amended): for every audio speed factor `a > 0`, every emitted atempo
stage factor lies in `[0.5, 2.0]`, and the product of the emitted stage
factors (an empty chain counting as the identity factor 1.0) equals `a` to
within a relative error of `1e-4` — `|product - a| ≤ a * 1e-4` — the bound
forced by rounding the final leftover stage to 4 decimal places. -/
theorem tempo_chain_stages_and_product (a : ℚ) (ha : 0 < a) :
    (∀ f ∈ atempoChain a ha, 1 / 2 ≤ f ∧ f ≤ 2) ∧
    |(atempoChain a ha).prod - a| ≤ a / 10000 := by
  obtain ⟨m, k, r, hc, hprod, hr1, hr2⟩ := atempoChain_spec a ha
  have hrd := round4_mem r hr1 hr2
  constructor
  · intro f hf
    rw [hc] at hf
    simp only [List.mem_append, List.mem_replicate] at hf
    rcases hf with (⟨-, hf⟩ | ⟨-, hf⟩) | hf
    · rw [hf]; norm_num
    · rw [hf]; norm_num
    · rcases eq_or_ne r 1 with he | he
      · simp [he] at hf
      · simp only [if_pos he, List.mem_singleton] at hf
        rw [hf]; exact hrd
  · rw [hc]
    rcases eq_or_ne r 1 with he | he
    · simp only [he, ne_eq, not_true_eq_false, if_false, List.append_nil]
      rw [List.prod_append, List.prod_replicate, List.prod_replicate]
      rw [hprod, he]
      simp only [mul_one, sub_self, abs_zero]
      positivity
    · simp only [if_pos he]
      rw [List.prod_append, List.prod_append, List.prod_replicate, List.prod_replicate,
        List.prod_singleton]
      have hP : (0 : ℚ) < 2 ^ m * (1 / 2) ^ k := by positivity
      have hd : |round4 r - r| ≤ 1 / 20000 := abs_round4_sub r
      have heq : 2 ^ m * (1 / 2) ^ k * round4 r - a =
          2 ^ m * (1 / 2) ^ k * (round4 r - r) := by
        linear_combination -hprod
      rw [heq, abs_mul, abs_of_pos hP, hprod]
      have hbound : |round4 r - r| ≤ r / 10000 := by linarith
      calc 2 ^ m * (1 / 2) ^ k * |round4 r - r|
          ≤ 2 ^ m * (1 / 2) ^ k * (r / 10000) :=
            mul_le_mul_of_nonneg_left hbound (le_of_lt hP)
        _ = 2 ^ m * (1 / 2) ^ k * r / 10000 := by ring

/-- C1 witness: the amended claim instantiated at the factor 3. -/
theorem tempo_chain_stages_and_product_witness :
    0 < (3 : ℚ) ∧
      ((∀ f ∈ atempoChain 3 (by norm_num), 1 / 2 ≤ f ∧ f ≤ 2) ∧
        |(atempoChain 3 (by norm_num)).prod - 3| ≤ 3 / 10000) :=
  ⟨by norm_num, tempo_chain_stages_and_product 3 (by norm_num)⟩

/-- C1 counterexample: at the audio speed factor `a = 1.23456` the chain is
the single stage `round4 1.23456 = 1.2346`, whose product differs from `a`
by `4e-5 > 1e-6`, so the product does not equal `a` to within `1e-6`. -/
theorem tempo_chain_product_not_within_1e6 :
    0 < (123456 / 100000 : ℚ) ∧
      ¬ |(atempoChain (123456 / 100000) (by norm_num)).prod - 123456 / 100000| ≤
          1 / 1000000 := by
  constructor
  · norm_num
  · have hdown : atempoDown (123456 / 100000 : ℚ) (by norm_num) =
        ([], ⟨123456 / 100000, by norm_num⟩) := by
      rw [atempoDown.eq_def, dif_neg (by norm_num)]
    have hup : atempoUp (123456 / 100000 : ℚ) (by norm_num) =
        ([], 123456 / 100000) := by
      rw [atempoUp.eq_def, dif_neg (by norm_num)]
    have hr4 : round4 (123456 / 100000 : ℚ) = 12346 / 10000 := by
      unfold round4
      rw [show round ((123456 / 100000 : ℚ) * 10000) = 12346 by rw [round_eq]; norm_num]
      norm_num
    have hchain : atempoChain (123456 / 100000 : ℚ) (by norm_num) =
        [round4 (123456 / 100000 : ℚ)] := by
      unfold atempoChain
      simp only [hdown, hup]
      norm_num
    rw [hchain, hr4, List.prod_singleton]
    rw [show (12346 : ℚ) / 10000 - 123456 / 100000 = 1 / 25000 by norm_num]
    rw [abs_of_pos (by norm_num : (0 : ℚ) < 1 / 25000)]
    norm_num

/-- C9: for every positive audio speed factor the two atempo loops terminate —
their emitted stage lists are finite replications of the 2.0 and 0.5 stages —
leaving a leftover factor in `[0.5, 2.0]`. -/
theorem tempo_chain_loops_terminate (a : ℚ) (ha : 0 < a) :
    ∃ m k : ℕ,
      (atempoDown a ha).1 = List.replicate m 2 ∧
      (atempoUp (atempoDown a ha).2.1 (atempoDown a ha).2.2).1 = List.replicate k (1 / 2) ∧
      1 / 2 ≤ (atempoUp (atempoDown a ha).2.1 (atempoDown a ha).2.2).2 ∧
      (atempoUp (atempoDown a ha).2.1 (atempoDown a ha).2.2).2 ≤ 2 := by
  obtain ⟨m, hd1, hd2, hd3⟩ := atempoDown_spec a ha
  obtain ⟨k, hu1, hu2, hu3, hu4⟩ := atempoUp_spec (atempoDown a ha).2.1 (atempoDown a ha).2.2
  refine ⟨m, k, hd1, hu1, hu3, ?_⟩
  rcases hu4 with h | h
  · rw [h]; exact hd3
  · linarith

/-- C9 witness: the loop structure instantiated at the factor 5. -/
theorem tempo_chain_loops_terminate_witness :
    0 < (5 : ℚ) ∧
      ∃ m k : ℕ,
        (atempoDown 5 (by norm_num)).1 = List.replicate m 2 ∧
        (atempoUp (atempoDown 5 (by norm_num)).2.1 (atempoDown 5 (by norm_num)).2.2).1 =
          List.replicate k (1 / 2) ∧
        1 / 2 ≤ (atempoUp (atempoDown 5 (by norm_num)).2.1 (atempoDown 5 (by norm_num)).2.2).2 ∧
        (atempoUp (atempoDown 5 (by norm_num)).2.1 (atempoDown 5 (by norm_num)).2.2).2 ≤ 2 :=
  ⟨by norm_num, tempo_chain_loops_terminate 5 (by norm_num)⟩

/-- C2: whenever the transcoder computes the speed factors (positive probed
and desired durations), `video_pts_factor` equals
`desired_duration / temp_duration`, and when the produced duration equals the
desired duration the factor is the identity 1.0. -/
theorem video_pts_factor_spec (temp_duration desired_duration : ℚ)
    (_h1 : 0 < temp_duration) (h2 : 0 < desired_duration) :
    video_pts_factor temp_duration desired_duration = desired_duration / temp_duration ∧
    (temp_duration = desired_duration →
      video_pts_factor temp_duration desired_duration = 1) := by
  have hmain : video_pts_factor temp_duration desired_duration =
      desired_duration / temp_duration := by
    unfold video_pts_factor video_speed_factor
    rw [show (1.0 : ℚ) = 1 by norm_num, one_div_div]
  refine ⟨hmain, fun he => ?_⟩
  rw [hmain, he, div_self (ne_of_gt h2)]

/-- C2 witness: identical produced and desired durations of 2 s give the
identity PTS factor. -/
theorem video_pts_factor_spec_witness :
    0 < (2 : ℚ) ∧ video_pts_factor 2 2 = 2 / 2 ∧ video_pts_factor 2 2 = 1 :=
  ⟨by norm_num, (video_pts_factor_spec 2 2 (by norm_num) (by norm_num)).1,
    (video_pts_factor_spec 2 2 (by norm_num) (by norm_num)).2 rfl⟩

/-- C8 counterexample: the frame-rate normalizer maps 60.2 to 59.94 (the
broadcast fractional rate), not to 60.0 as the claim states. -/
theorem normalize_fps_60_2_counterexample :
    normalize_fps 60.2 = 59.94 ∧ (59.94 : ℚ) ≠ 60.0 := by
  constructor
  · unfold normalize_fps
    norm_num
  · norm_num

/-- C8 (amended): the normalizer returns 29.97 for 29.7, 59.94 for 60.2
(inputs within ±0.5 of 60 map to the fractional broadcast rate), and 22.0
for 22.0 (pass-through rounded to 3 decimals). -/
theorem normalize_fps_examples :
    normalize_fps 29.7 = 29.97 ∧ normalize_fps 60.2 = 59.94 ∧
      normalize_fps 22.0 = 22.0 := by
  refine ⟨?_, ?_, ?_⟩ <;> unfold normalize_fps <;> norm_num [round3, round_eq]

/-- C6: the model selector agrees everywhere with the specification's rule
table (`pickModelSpec`: clamp non-positive bitrate to 1.0, four ordered rules,
first match wins), its final amount is clamped to `[0.45, 0.75]`, and the
returned unsharp expression embeds that amount at two decimal places. -/
theorem pick_model_matches_spec (w h : ℤ) (fps br : ℚ) :
    pick_model_amount w h fps br = pickModelSpec w h fps br ∧
    0.45 ≤ (pick_model_amount w h fps br).2 ∧
    (pick_model_amount w h fps br).2 ≤ 0.75 ∧
    (pick_model_and_sharpen w h fps br).2 =
      "unsharp=luma_msize_x=5:luma_amount=" ++ fmt2 (pick_model_amount w h fps br).2 := by
  refine ⟨?_, ?_, ?_, rfl⟩
  · unfold pick_model_amount pickModelSpec
    dsimp only
    by_cases hc1 : (w < 1280 ∨ h < 720) ∨
        (if br ≤ 0 then (1.0 : ℚ) else br) < 6
    · rw [if_pos hc1,
        if_pos (show w < 1280 ∨ h < 720 ∨ (if br ≤ 0 then (1.0 : ℚ) else br) < 6 by tauto)]
    · rw [if_neg hc1,
        if_neg (show ¬(w < 1280 ∨ h < 720 ∨ (if br ≤ 0 then (1.0 : ℚ) else br) < 6) by tauto)]
      by_cases hc2 : (w ≥ 3200 ∨ h ≥ 1800) ∧ (if br ≤ 0 then (1.0 : ℚ) else br) ≥ 12
      · rw [if_pos hc2, if_pos hc2]
      · rw [if_neg hc2, if_neg hc2]
        by_cases hc3 : (w ≥ 1920 ∧ h ≥ 1080) ∧
            (6 ≤ (if br ≤ 0 then (1.0 : ℚ) else br) ∧ (if br ≤ 0 then (1.0 : ℚ) else br) < 12)
        · rw [if_pos hc3,
            if_pos (show w ≥ 1920 ∧ h ≥ 1080 ∧
              6 ≤ (if br ≤ 0 then (1.0 : ℚ) else br) ∧
                (if br ≤ 0 then (1.0 : ℚ) else br) < 12 by tauto)]
        · rw [if_neg hc3,
            if_neg (show ¬(w ≥ 1920 ∧ h ≥ 1080 ∧
              6 ≤ (if br ≤ 0 then (1.0 : ℚ) else br) ∧
                (if br ≤ 0 then (1.0 : ℚ) else br) < 12) by tauto)]
          by_cases hc4 : (if br ≤ 0 then (1.0 : ℚ) else br) < 12
          · rw [if_pos (show ¬(if br ≤ 0 then (1.0 : ℚ) else br) ≥ 12 from not_le.mpr hc4),
              if_pos hc4]
          · rw [if_neg (show ¬¬(if br ≤ 0 then (1.0 : ℚ) else br) ≥ 12 from
              not_not.mpr (not_lt.mp hc4)), if_neg hc4]
  · unfold pick_model_amount
    split_ifs <;> norm_num
  · unfold pick_model_amount
    split_ifs <;> norm_num

theorem not_mem_erase_self_of_nodup {K : Type} [DecidableEq K] (pool : List K) (k : K)
    (hnd : pool.Nodup) : k ∉ pool.erase k := by
  induction pool with
  | nil => simp
  | cons x xs ih =>
    rw [List.erase_cons]
    rcases List.nodup_cons.mp hnd with ⟨hx, hxs⟩
    by_cases hxk : x = k
    · rw [if_pos (by simpa using hxk)]
      rw [hxk] at hx
      exact hx
    · rw [if_neg (by simpa using hxk)]
      intro hmem
      rcases List.mem_cons.mp hmem with he | he
      · exact hxk he.symm
      · exact ih hxs he

/-- C4 counterexample: a status response with normalized progress 100, state
`processing`, and a download descriptor present makes the poller wait (not
resolve success), although the claim's "exactly when" demands success because
the download descriptor is present. -/
theorem poll_download_at_full_progress_not_success :
    pollIteration ⟨some "processing", none, some 100, some "u"⟩ = PollOutcome.waitLong ∧
    (StatusResp.mk (some "processing") none (some 100) (some "u")).download.isSome = true ∧
    stateLower ⟨some "processing", none, some 100, some "u"⟩ ≠ "complete" ∧
    pollIteration ⟨some "processing", none, some 100, some "u"⟩ ≠ PollOutcome.success := by
  refine ⟨?_, rfl, ?_, ?_⟩ <;> decide

/-- C4 (amended): a response whose normalized progress is ≥ 100 while the
case-folded state is not `complete` is never terminal (the poller waits and
polls again); and the poller resolves success exactly when (the state is
`complete` or a download descriptor is present) and additionally (normalized
progress is < 100 or the state is `complete`) — a download descriptor alone
does not yield success at full progress. -/
theorem poll_iteration_spec (r : StatusResp) :
    (progressVal r ≥ 100 → stateLower r ≠ "complete" →
      pollIteration r = PollOutcome.waitLong) ∧
    (pollIteration r = PollOutcome.success ↔
      ((stateLower r = "complete" ∨ r.download.isSome = true) ∧
        (progressVal r < 100 ∨ stateLower r = "complete"))) := by
  unfold pollIteration pollStep
  constructor
  · intro hp hs
    rw [if_pos ⟨hp, hs⟩]
  · split_ifs with h1 h2 h3
    · constructor
      · intro hw
        exact hw.elim
      · rintro ⟨-, hc | hc⟩
        · exact absurd hc (not_lt.mpr h1.1)
        · exact absurd hc h1.2
    · constructor
      · intro _
        push_neg at h1
        refine ⟨h2, ?_⟩
        by_cases hpv : progressVal r < 100
        · exact Or.inl hpv
        · exact Or.inr (h1 (by linarith))
      · intro _
        rfl
    · constructor
      · intro hw
        exact hw.elim
      · rintro ⟨hb, -⟩
        exact absurd hb h2
    · constructor
      · intro hw
        exact hw.elim
      · rintro ⟨hb, -⟩
        exact absurd hb h2

/-- C4 witness: a response at 50% progress with a download descriptor and a
non-complete state resolves as success. -/
theorem poll_iteration_spec_witness :
    pollIteration ⟨some "queued", none, some (1 / 2), some "u"⟩ = PollOutcome.success :=
  (poll_iteration_spec ⟨some "queued", none, some (1 / 2), some "u"⟩).2.mpr
    ⟨Or.inr rfl, Or.inl (by norm_num [progressVal, min_def, max_def])⟩

/-- C3 counterexample: with the duplicate pool `[k, k]` (the key file may list
the same key twice, and uniqueness is not required), evicting `k` removes only
the first occurrence, so `k` is still present in the in-memory pool. -/
theorem evict_duplicate_key_remains :
    evictKey [(['a'] : List Char), ['a']] ['a'] = [['a']] ∧
    (['a'] : List Char) ∈ evictKey [(['a'] : List Char), ['a']] ['a'] := by
  decide

/-- C3 (amended): after a job succeeds using key `k` drawn from the pool, `k`
is at the tail of the in-memory pool; an insufficient-credit eviction removes
the first occurrence of `k` from the in-memory pool — so `k` is absent
whenever the pool is duplicate-free — and after the backing-file rewrite no
line of the key file contains `k`. -/
theorem credential_rotation_spec (pool : List (List Char)) (k : List Char)
    (lines : List (List Char)) :
    (k ∈ pool → (rotateKey pool k).getLast? = some k) ∧
    (pool.Nodup → k ∉ evictKey pool k) ∧
    (∀ line ∈ removeKeyLines k lines, ¬ k <:+: line) := by
  refine ⟨?_, ?_, ?_⟩
  · intro hk
    rw [rotateKey, if_pos hk]
    exact List.getLast?_concat _
  · intro hnd hmem
    by_cases hk : k ∈ pool
    · rw [evictKey, if_pos hk] at hmem
      exact not_mem_erase_self_of_nodup pool k hnd hmem
    · rw [evictKey, if_neg hk] at hmem
      exact hk hmem
  · induction lines with
    | nil =>
      intro line hmem
      cases hmem
    | cons l rest ih =>
      intro line hmem
      rw [removeKeyLines] at hmem
      split_ifs at hmem with hl
      · exact ih line hmem
      · rcases List.mem_cons.mp hmem with he | he
        · rw [he]
          exact hl
        · exact ih line he

/-- C3 witness: rotation puts the used key at the tail, and eviction from a
duplicate-free pool removes the key. -/
theorem credential_rotation_spec_witness :
    (rotateKey [(['a'] : List Char), ['b']] ['a']).getLast? = some ['a'] ∧
    (['a'] : List Char) ∉ evictKey [(['a'] : List Char), ['b']] ['a'] :=
  ⟨(credential_rotation_spec [['a'], ['b']] ['a'] []).1 (by decide),
   (credential_rotation_spec [['a'], ['b']] ['a'] []).2.1 (by decide)⟩
/-- C10: the key-file rewrite keeps exactly the original lines that do not
contain `k` as a substring, in order (it is the substring filter, and its
output is a sublist of the input); every line containing `k` — including a
line holding a different key whose text contains `k` — is removed, and every
line not containing `k` survives. -/
theorem remove_key_lines_spec {α : Type} [DecidableEq α] (k : List α)
    (lines : List (List α)) :
    removeKeyLines k lines = lines.filter (fun line => !decide (k <:+: line)) ∧
    (removeKeyLines k lines).Sublist lines ∧
    (∀ line ∈ lines, k <:+: line → line ∉ removeKeyLines k lines) ∧
    (∀ line ∈ lines, ¬ k <:+: line → line ∈ removeKeyLines k lines) := by
  have hfilter : removeKeyLines k lines =
      lines.filter (fun line => !decide (k <:+: line)) := by
    induction lines with
    | nil => rfl
    | cons l rest ih =>
      rw [removeKeyLines]
      split_ifs with hl
      · rw [List.filter_cons_of_neg (by simpa using hl), ih]
      · rw [List.filter_cons_of_pos (by simpa using hl), ih]
  refine ⟨hfilter, hfilter ▸ List.filter_sublist _, ?_, ?_⟩
  · intro line hline hinf hmem
    rw [hfilter, List.mem_filter] at hmem
    simpa [hinf] using hmem.2
  · intro line hline hninf
    rw [hfilter, List.mem_filter]
    exact ⟨hline, by simpa using hninf⟩

/-- C10 witness: a line holding a different key whose text contains `k` is
removed together with `k`'s own line, while unrelated lines survive. -/
theorem remove_key_lines_spec_witness :
    (['x', 'a'] : List Char) ∉
      removeKeyLines (['a'] : List Char) [['x', 'a'], ['b'], ['a']] ∧
    (['b'] : List Char) ∈
      removeKeyLines (['a'] : List Char) [['x', 'a'], ['b'], ['a']] :=
  ⟨(remove_key_lines_spec ['a'] [['x', 'a'], ['b'], ['a']]).2.2.1
      ['x', 'a'] (by decide) (by decide),
   (remove_key_lines_spec ['a'] [['x', 'a'], ['b'], ['a']]).2.2.2
      ['b'] (by decide) (by decide)⟩

/-- C5: if the probed produced duration is unavailable (the probe raised) or
the guard `produced > 0 and original > 0` fails, the transcoder builds the
fallback stream-copy arguments — video mapped with the sharpen filter when
present, audio mapped with codec copy when usable non-muted audio exists,
otherwise muted; the arguments function is total (the `except` branch absorbs
any error, nothing escapes), and the exception path produces exactly the same
filter/mapping arguments as the invalid-duration path. -/
theorem reencode_fallback_spec (temp_dur : Option ℚ)
    (original_duration desired_duration : ℚ)
    (video_has_audio : Bool) (sharp_filter : Option String) :
    (exceptFallbackArgs video_has_audio sharp_filter =
      invalidDurationArgs video_has_audio sharp_filter) ∧
    (tryComputeArgs temp_dur original_duration desired_duration
        video_has_audio sharp_filter = Except.error () →
      reencodeFilterArgs temp_dur original_duration desired_duration
          video_has_audio sharp_filter =
        invalidDurationArgs video_has_audio sharp_filter) ∧
    ((temp_dur = none ∨ ∃ t, temp_dur = some t ∧ ¬(0 < t ∧ 0 < original_duration)) →
      reencodeFilterArgs temp_dur original_duration desired_duration
          video_has_audio sharp_filter =
        invalidDurationArgs video_has_audio sharp_filter) := by
  have h1 : exceptFallbackArgs video_has_audio sharp_filter =
      invalidDurationArgs video_has_audio sharp_filter := by
    cases video_has_audio <;> cases sharp_filter <;> rfl
  refine ⟨h1, ?_, ?_⟩
  · intro herr
    unfold reencodeFilterArgs
    rw [herr]
    exact h1
  · rintro (hnone | ⟨t, hsome, hguard⟩)
    · subst hnone
      exact h1
    · subst hsome
      have hok : tryComputeArgs (some t) original_duration desired_duration
          video_has_audio sharp_filter =
          Except.ok (invalidDurationArgs video_has_audio sharp_filter) := by
        rw [tryComputeArgs.eq_def]
        dsimp only
        rw [if_neg hguard]
      unfold reencodeFilterArgs
      rw [hok]

/-- C5 witness: a failed probe on a file with audio and a sharpen filter
degrades to the stream-copy fallback. -/
theorem reencode_fallback_spec_witness :
    reencodeFilterArgs none 10 10 true (some "sharp") =
      invalidDurationArgs true (some "sharp") :=
  (reencode_fallback_spec none 10 10 true (some "sharp")).2.2 (Or.inl rfl)

/-! ### Chunked-upload lemmas -/

theorem enumFrom_map_fst {α β : Type} (g : ℕ → β) :
    ∀ (l : List α) (n : ℕ),
      (List.enumFrom n l).map (fun iu => g iu.1) = (List.range' n l.length).map g := by
  intro l
  induction l with
  | nil =>
    intro n
    rfl
  | cons x xs ih =>
    intro n
    rw [List.enumFrom_cons, List.map_cons, List.length_cons, List.range'_succ, List.map_cons,
      ih (n + 1)]

theorem join_take_drop {γ : Type} (p : ℕ) (file : List γ) :
    ∀ (n i0 : ℕ),
      ((List.range' i0 n).map
        (fun i => (file.drop (i * p)).take (min ((i + 1) * p) file.length - i * p))).flatten =
      (file.drop (i0 * p)).take (min ((i0 + n) * p) file.length - i0 * p) := by
  intro n
  induction n with
  | zero =>
    intro i0
    simp only [List.range'_zero, List.map_nil, List.flatten_nil, Nat.add_zero]
    rw [Nat.sub_eq_zero_of_le (min_le_left _ _), List.take_zero]
  | succ n ih =>
    intro i0
    rw [List.range'_succ, List.map_cons, List.flatten_cons, ih (i0 + 1)]
    have he : (i0 + 1 + n) * p = (i0 + (n + 1)) * p := by ring
    rw [he]
    by_cases hc : (i0 + 1) * p ≤ file.length
    · rw [min_eq_left hc]
      have hp : (i0 + 1) * p - i0 * p = p := by
        simp only [Nat.add_mul, Nat.one_mul]
        omega
      rw [hp]
      rw [show file.drop ((i0 + 1) * p) = (file.drop (i0 * p)).drop p from by
        rw [List.drop_drop]
        congr 1
        ring]
      rw [← List.take_add]
      congr 1
      rcases le_total ((i0 + (n + 1)) * p) file.length with hm | hm
      · rw [min_eq_left hm]
        simp only [Nat.add_mul, Nat.one_mul] at hc hm ⊢
        omega
      · rw [min_eq_right hm]
        simp only [Nat.add_mul, Nat.one_mul] at hc hm ⊢
        omega
    · push_neg at hc
      rw [Nat.sub_eq_zero_of_le (le_trans (min_le_right _ _) (le_of_lt hc)),
        List.take_zero, List.append_nil, min_eq_right (le_of_lt hc)]
      congr 1
      rcases le_total ((i0 + (n + 1)) * p) file.length with hm | hm
      · rw [min_eq_left hm]
        simp only [Nat.add_mul, Nat.one_mul] at hc hm ⊢
        omega
      · rw [min_eq_right hm]

/-- C7 (amended): with part size `p = ceil(S/N)`, the uploader sends the `N`
contiguous byte ranges `[i*p, min((i+1)*p, S))`, whose concatenation is
exactly the file's bytes; it returns exactly `N` results whose partNum values
are `1..N` in order; part `i` carries `min(p, S - i*p)` bytes (truncated
subtraction) — so when `(N-1)*p > S` a part before the last is already short
or empty, not only the last one. -/
theorem upload_parts_spec (urls : List String) (file : List ℕ)
    (hurls : urls ≠ []) (_hfile : 1 ≤ file.length) :
    (upload_video_parts urls file).map PartUpload.partNum =
      List.range' 1 urls.length ∧
    ((upload_video_parts urls file).map PartUpload.data).flatten = file ∧
    (upload_video_parts urls file).map (fun pu => pu.data.length) =
      (List.range urls.length).map
        (fun i => min ((file.length + urls.length - 1) / urls.length)
          (file.length - i * ((file.length + urls.length - 1) / urls.length))) := by
  have hN : 0 < urls.length := List.length_pos.mpr hurls
  have hmap : upload_video_parts urls file =
      (List.enumFrom 0 urls).map
        (fun iu =>
          ⟨iu.1 + 1, (file.drop (iu.1 * ((file.length + urls.length - 1) / urls.length))).take
            (min ((iu.1 + 1) * ((file.length + urls.length - 1) / urls.length)) file.length -
              iu.1 * ((file.length + urls.length - 1) / urls.length))⟩) := rfl
  have hdata : (upload_video_parts urls file).map PartUpload.data =
      (List.range' 0 urls.length).map
        (fun i => (file.drop (i * ((file.length + urls.length - 1) / urls.length))).take
          (min ((i + 1) * ((file.length + urls.length - 1) / urls.length)) file.length -
            i * ((file.length + urls.length - 1) / urls.length))) := by
    rw [hmap, List.map_map]
    exact enumFrom_map_fst
      (fun i => (file.drop (i * ((file.length + urls.length - 1) / urls.length))).take
        (min ((i + 1) * ((file.length + urls.length - 1) / urls.length)) file.length -
          i * ((file.length + urls.length - 1) / urls.length))) urls 0
  refine ⟨?_, ?_, ?_⟩
  · rw [hmap, List.map_map]
    have h1 := enumFrom_map_fst (fun i => i + 1) urls 0
    have h2 : (List.range' 0 urls.length).map (fun i => i + 1) =
        List.range' 1 urls.length := by
      rw [List.map_congr_left (fun a _ => Nat.add_comm a 1), List.map_add_range']
    rw [← h2, ← h1]
    rfl
  · rw [hdata, join_take_drop]
    have hceil : file.length ≤
        urls.length * ((file.length + urls.length - 1) / urls.length) := by
      have h1 : (file.length + urls.length - 1) % urls.length < urls.length :=
        Nat.mod_lt _ hN
      have h2 := Nat.div_add_mod (file.length + urls.length - 1) urls.length
      omega
    rw [Nat.zero_mul, List.drop_zero, Nat.zero_add, Nat.sub_zero]
    rw [min_eq_right hceil, List.take_length]
  · rw [hmap, List.map_map, List.range_eq_range']
    have h1 := enumFrom_map_fst
      (fun i => ((file.drop (i * ((file.length + urls.length - 1) / urls.length))).take
        (min ((i + 1) * ((file.length + urls.length - 1) / urls.length)) file.length -
          i * ((file.length + urls.length - 1) / urls.length))).length) urls 0
    have h2 : (List.range' 0 urls.length).map
        (fun i => ((file.drop (i * ((file.length + urls.length - 1) / urls.length))).take
          (min ((i + 1) * ((file.length + urls.length - 1) / urls.length)) file.length -
            i * ((file.length + urls.length - 1) / urls.length))).length) =
        (List.range' 0 urls.length).map
          (fun i => min ((file.length + urls.length - 1) / urls.length)
            (file.length - i * ((file.length + urls.length - 1) / urls.length))) := by
      refine List.map_congr_left fun i _ => ?_
      rw [List.length_take, List.length_drop, inf_eq_min]
      generalize (file.length + urls.length - 1) / urls.length = q
      rcases le_total ((i + 1) * q) file.length with hm | hm
      · rw [min_eq_left hm, show (i + 1) * q - i * q = q from by
          simp only [Nat.add_mul, Nat.one_mul]
          omega]
      · rw [min_eq_right hm, min_self,
          min_eq_right (show file.length - i * q ≤ q from by
            simp only [Nat.add_mul, Nat.one_mul] at hm
            omega)]
    exact Eq.trans h1 h2

/-- C7 counterexample: for a 1-byte file and 3 upload URLs the part size is
`ceil(1/3) = 1` and the parts carry `[1, 0, 0]` bytes — the second part (not
the last) is already shorter than the part size, refuting "only the last part
possibly shorter than p". -/
theorem upload_parts_middle_short :
    (upload_video_parts ["u1", "u2", "u3"] [7]).map (fun pu => pu.data.length) =
      [1, 0, 0] ∧
    ((1 : ℕ) + 3 - 1) / 3 = 1 := by
  decide

/-- C7 witness: two URLs over a three-byte file — part numbers 1, 2; the
concatenation of the parts is the file; sizes follow the min formula. -/
theorem upload_parts_spec_witness :
    (["a", "b"] : List String) ≠ [] ∧
      ((upload_video_parts ["a", "b"] [5, 6, 7]).map PartUpload.partNum =
          List.range' 1 (["a", "b"] : List String).length ∧
        ((upload_video_parts ["a", "b"] [5, 6, 7]).map PartUpload.data).flatten =
          [5, 6, 7] ∧
        (upload_video_parts ["a", "b"] [5, 6, 7]).map (fun pu => pu.data.length) =
          (List.range (["a", "b"] : List String).length).map
            (fun i => min
              ((([5, 6, 7] : List ℕ).length + (["a", "b"] : List String).length - 1) /
                (["a", "b"] : List String).length)
              (([5, 6, 7] : List ℕ).length - i *
                ((([5, 6, 7] : List ℕ).length + (["a", "b"] : List String).length - 1) /
                  (["a", "b"] : List String).length)))) :=
  ⟨by decide, upload_parts_spec ["a", "b"] [5, 6, 7] (by decide) (by decide)⟩

end Topaz
